import Mathlib

/-!
Verification of the binary framing layer of `go-minecraftping`
(`minecraftping.go`), a client for the Minecraft Java Edition
"Server List Ping" protocol.

The Go source is shallowly embedded: byte buffers become `List Nat`
(each element a byte value `< 256` where relevant), Go `int`/`int32`
become `Int` with explicit two's-complement truncation, `uint64`
becomes `Nat`, and fallible operations return `Except`/`Option`.
Functions from the Go standard library that the source calls
(`binary.PutUvarint`, `binary.ReadUvarint`, `io.ReadFull`,
`encoding/json.Unmarshal` on the `Response` struct shape) are embedded
from their standard-library semantics, since the program's behaviour is
defined through them.
-/

namespace MinecraftPing

/-- Error outcomes of the embedded `binary.ReadUvarint`.
`eof` stands for the reader's byte-level error when the stream ends
before a terminating byte (Go surfaces `io.EOF` on the first byte and
`io.ErrUnexpectedEOF` afterwards; both are failures and are collapsed
here). `overflow` is Go's `errOverflow`
("binary: varint overflows a 64-bit integer"). -/
inductive ReadErr where
  | eof
  | overflow
  deriving DecidableEq, Repr

/-- Embedding of Go `encoding/binary.PutUvarint` (the byte sequence it
writes, least-significant 7-bit group first, high bit set on every byte
except the last):

```go
for x >= 0x80 { buf[i] = byte(x) | 0x80; x >>= 7; i++ }
buf[i] = byte(x)
```

For `x ≥ 0x80` the emitted byte `byte(x) | 0x80` equals
`x % 0x80 + 0x80`. -/
def putUvarint (x : Nat) : List Nat :=
  if h : 0x80 ≤ x then (x % 0x80 + 0x80) :: putUvarint (x / 0x80) else [x]
termination_by x
decreasing_by exact Nat.div_lt_self (by omega) (by omega)

/-- Number of bytes `binary.PutUvarint` writes for `x`. -/
def uvarintLen (x : Nat) : Nat := (putUvarint x).length

/-- Embedding of the loop of Go `encoding/binary.ReadUvarint`:

```go
for i := 0; i < MaxVarintLen64; i++ {
  b, err := r.ReadByte()
  if err != nil { return x, err }
  if b < 0x80 {
    if i == MaxVarintLen64-1 && b > 1 { return x, errOverflow }
    return x | uint64(b)<<s, nil
  }
  x |= uint64(b&0x7f) << s
  s += 7
}
return x, errOverflow
```

`i` is the loop counter, `x` the accumulator, `s` the shift; the result
carries the remaining stream.  (On error paths Go also returns the
partial accumulator, truncated mod 2^64; that value is discarded by
every caller, so the embedding drops it.) -/
def readUvarintAux (i x s : Nat) : List Nat → Except ReadErr (Nat × List Nat)
  | [] =>
    if 10 ≤ i then Except.error ReadErr.overflow else Except.error ReadErr.eof
  | b :: rest =>
    if 10 ≤ i then Except.error ReadErr.overflow
    else if b < 0x80 then
      if i = 9 ∧ 1 < b then Except.error ReadErr.overflow
      else Except.ok (x ||| (b <<< s), rest)
    else readUvarintAux (i + 1) (x ||| ((b &&& 0x7f) <<< s)) (s + 7) rest

/-- `binary.ReadUvarint` on a byte stream: value plus remaining stream. -/
def readUvarint (bs : List Nat) : Except ReadErr (Nat × List Nat) :=
  readUvarintAux 0 0 0 bs

/-- The spec's `decodeVarint(stream) -> (value, bytesConsumed)` view of
`binary.ReadUvarint`: the second component counts the consumed bytes. -/
def decodeUvarint (bs : List Nat) : Except ReadErr (Nat × Nat) :=
  match readUvarint bs with
  | Except.error e => Except.error e
  | Except.ok (v, rest) => Except.ok (v, bs.length - rest.length)

/-! ### The response reader of `Ping` (lines 77–101)

`Ping` reads from a `bufio.Reader` over the connection: one varint
(outer packet length, discarded), one varint (packet ID, must be 0),
one varint (payload length), then exactly that many payload bytes via
`io.ReadFull`.  The inbound stream is modelled as the byte list the
server delivers. -/

/-- Failure modes of the read side of `Ping` (each `return resp, err`
before the JSON stage). `varint e` propagates a `binary.ReadUvarint`
error; `unexpectedPacketId` is the `received invalid packetId` error;
`truncated` is `io.ReadFull`'s `io.ErrUnexpectedEOF`/`io.EOF`. -/
inductive PingErr where
  | varint (e : ReadErr)
  | unexpectedPacketId (id : Nat)
  | truncated
  deriving DecidableEq, Repr

/-- `io.ReadFull(reader, payload)` with `payload := make([]byte, n)`
over a byte stream: succeeds with the first `n` bytes exactly when the
stream holds at least `n` bytes, else fails. -/
def readFullList (n : Nat) (bs : List Nat) : Except PingErr (List Nat) :=
  if bs.length < n then Except.error PingErr.truncated
  else Except.ok (bs.take n)

/-- The payload-length varint followed by the `io.ReadFull` of the
payload (lines 93–101). -/
def readPayloadField (bs : List Nat) : Except PingErr (List Nat) :=
  match readUvarint bs with
  | Except.error e => Except.error (PingErr.varint e)
  | Except.ok (len, rest) => readFullList len rest

/-- The full read side of `Ping` (lines 77–101): discard the outer
packet-length varint, read the packet-ID varint and reject a non-zero
ID, then read the length-prefixed payload. -/
def readResponsePayload (bs : List Nat) : Except PingErr (List Nat) :=
  match readUvarint bs with
  | Except.error e => Except.error (PingErr.varint e)
  | Except.ok (_, bs1) =>
    match readUvarint bs1 with
    | Except.error e => Except.error (PingErr.varint e)
    | Except.ok (packetId, bs2) =>
      if packetId ≠ 0 then Except.error (PingErr.unexpectedPacketId packetId)
      else readPayloadField bs2

/-! ### The payload accumulation loop of `io.ReadFull` -/

/-- The accumulation loop of `io.ReadFull`/`io.ReadAtLeast` as `Ping`
invokes it on the payload buffer (line 99): each element of `chunks` is
the byte sequence one underlying `Read` call delivers (a `Read` never
returns more than the space left in the buffer, so an over-long chunk
is cut to the remaining need); the loop continues while fewer than `n`
bytes have accumulated and bytes are still arriving, and fails if the
stream is exhausted first. -/
def readFullChunks (n : Nat) (acc : List Nat) :
    List (List Nat) → Except PingErr (List Nat)
  | [] =>
    if acc.length < n then Except.error PingErr.truncated else Except.ok acc
  | c :: rest =>
    if n ≤ acc.length then Except.ok acc
    else readFullChunks n (acc ++ c.take (n - acc.length)) rest

/-! ### The outbound packets

`makeHandshakePacket(address string, port uint16, protocolVersion int)`
(lines 109–130) and the cached Request packet (line 29).  Go's `int` is
embedded as `Int`; the `int32(...)` conversions in the source are the
explicit truncation `toInt32`. -/

/-- Go's `int32(z)` two's-complement truncation of an `int` value. -/
def toInt32 (z : Int) : Int :=
  if z % (2 ^ 32 : Int) < 2 ^ 31 then z % (2 ^ 32 : Int)
  else z % (2 ^ 32 : Int) - 2 ^ 32

/-- Go's `uint64(w)` of an `int32` value: two's-complement
sign-extension into 64 bits (`uint64(int32(-1)) = 2^64 - 1`). -/
def uint64OfInt32 (w : Int) : Nat := (w % (2 ^ 64 : Int)).toNat

/-- Embedding of the source's `putVarInt` (lines 133–138):

```go
bytes := make([]byte, binary.MaxVarintLen32)        // 5 bytes
bytesWritten := binary.PutUvarint(bytes, uint64(value))
buf.Write(bytes[:bytesWritten])
```

`binary.PutUvarint` writes `uint64(value)` into the 5-byte buffer and
panics with an index-out-of-range once the encoding needs a 6th byte;
`none` models that panic. -/
def putVarInt (value : Int) : Option (List Nat) :=
  let bytes := putUvarint (uint64OfInt32 (toInt32 value))
  if bytes.length ≤ 5 then some bytes else none

/-- The port as written by `binary.Write(&buf, binary.BigEndian, port)`
for a `uint16`: 2 bytes, big-endian. -/
def u16be (port : Nat) : List Nat := [port / 256 % 256, port % 256]

/-- Embedding of `makeHandshakePacket` (lines 109–130): packet ID 0x00,
protocol-version varint, address-length varint, raw address bytes, port
big-endian, next-state varint 1; the body is then prepended with its
own length as a varint.  `none` propagates a `putVarInt` panic. -/
def makeHandshakePacket (address : List Nat) (port : Nat)
    (protocolVersion : Int) : Option (List Nat) :=
  (putVarInt protocolVersion).bind fun pvB =>
    (putVarInt (Int.ofNat address.length)).bind fun alB =>
      (putVarInt 1).bind fun nsB =>
        (putVarInt (Int.ofNat
            ([0] ++ pvB ++ alB ++ address ++ u16be port ++ nsB).length)).bind
          fun lenB =>
            some (lenB ++ ([0] ++ pvB ++ alB ++ address ++ u16be port ++ nsB))

/-- The source's cached Request packet (line 29): only its length (1)
and the packet ID (0). -/
def requestPacket : List Nat := [1, 0]

/-- The legacy source file's `makeRequestPacket` (returns
`[]byte{1, 0}`). -/
def makeRequestPacket : List Nat := [1, 0]

/-- The bytes `Ping` passes to its second `conn.Write` (line 73): the
cached constant, independent of address, port, and protocol version. -/
def pingRequestWrite (address : List Nat) (port : Nat)
    (protocolVersion : Int) : List Nat :=
  requestPacket

/-- The write-then-read phase of `Ping` after the connection is
established (lines 68–105, before the JSON stage):
`conn.Write(handshake)` (line 71) and `conn.Write(requestPacket)`
(line 73) are expression statements whose return values — byte count
and error alike — are discarded, so the outcome is exactly the read of
the response stream whatever the write outcomes were.  The two `Bool`
parameters say whether the respective write fails. -/
def pingAfterConnect (handshakeWriteFails requestWriteFails : Bool)
    (response : List Nat) : Except PingErr (List Nat) :=
  readResponsePayload response

/-! ### JSON deserialization into `Response` (lines 33–48 and 102–104)

`Ping` ends with `json.Unmarshal(payload, &resp)` into the `Response`
struct.  `encoding/json.Unmarshal` is embedded at the level of parsed
JSON values, by its documented semantics for this struct shape: the
top level must be a JSON object (or null); keys are matched against
the struct's json tags, exactly or — the decoder's documented fallback
— case-insensitively (see `jsonKeyMatches`), and keys matching no tag
are ignored; a missing key leaves the field at its zero value; a
null value leaves a string or integer field untouched and resets a
slice to nil; a present value of the wrong shape aborts with an
`UnmarshalTypeError`.  JSON numbers are modelled as integers, which is
the shape the struct's `int` fields accept. -/

/-- A parsed JSON value. -/
inductive Json where
  | null
  | bool (b : Bool)
  | num (n : Int)
  | str (s : String)
  | arr (elems : List Json)
  | obj (fields : List (String × Json))

/-- `Response.Version`. -/
structure ResponseVersion where
  name : String
  protocol : Int

/-- An element of `Response.Players.Sample`. -/
structure ResponsePlayer where
  name : String
  id : String

/-- `Response.Players`. -/
structure ResponsePlayers where
  max : Int
  online : Int
  sample : List ResponsePlayer

/-- The `Response` struct.  `description` is a `json.RawMessage`
(uninterpreted raw JSON, `nil` when absent, modelled as `Option`). -/
structure Response where
  version : ResponseVersion
  players : ResponsePlayers
  description : Option Json
  favicon : String

/-- `var resp Response`: the zero value every field starts from. -/
def zeroResponse : Response := ⟨⟨"", 0⟩, ⟨0, 0, []⟩, none, ""⟩

/-- The single error kind of the embedded `json.Unmarshal`
(`UnmarshalTypeError`: a value of the wrong shape for its target). -/
inductive JsonErr where
  | typeMismatch
  deriving DecidableEq, Repr

/-- Unmarshal into a `string` field: null leaves the value unchanged. -/
def decodeString (j : Json) (cur : String) : Except JsonErr String :=
  match j with
  | Json.null => Except.ok cur
  | Json.str s => Except.ok s
  | _ => Except.error JsonErr.typeMismatch

/-- Unmarshal into an `int` field: null leaves the value unchanged. -/
def decodeInt (j : Json) (cur : Int) : Except JsonErr Int :=
  match j with
  | Json.null => Except.ok cur
  | Json.num n => Except.ok n
  | _ => Except.error JsonErr.typeMismatch

/-- The decoder's case folding of an object key, as Go 1.20+'s
`encoding/json` `foldName` applies against the lowercase-ASCII json
tags of `Response`: ASCII letters are lowercased (`Char.toLower`
lowercases exactly `'A'`–`'Z'`).  Go maps a non-ASCII rune to the
least rune of its Unicode fold set, which is never a lowercase ASCII
letter, so against these tags leaving non-ASCII characters unchanged
compares identically. -/
def foldName (s : String) : String := String.mk (s.data.map Char.toLower)

/-- Key lookup of `encoding/json` for a struct field with
lowercase-ASCII json tag `tag`: an exact name match is preferred, with
a fallback to a case-insensitive (folded) match.  The tags of
`Response` are pairwise distinct under folding, so preferring the
exact match changes nothing; it is kept to mirror the decoder. -/
def jsonKeyMatches (key tag : String) : Bool :=
  key == tag || foldName key == tag

def updatePlayer (p : ResponsePlayer) (kv : String × Json) :
    Except JsonErr ResponsePlayer :=
  if jsonKeyMatches kv.1 "name" then
    (decodeString kv.2 p.name).map fun s => { p with name := s }
  else if jsonKeyMatches kv.1 "id" then
    (decodeString kv.2 p.id).map fun s => { p with id := s }
  else Except.ok p

def decodePlayerFields (p : ResponsePlayer) :
    List (String × Json) → Except JsonErr ResponsePlayer
  | [] => Except.ok p
  | kv :: rest =>
    match updatePlayer p kv with
    | Except.error e => Except.error e
    | Except.ok q => decodePlayerFields q rest

def decodePlayer (j : Json) (cur : ResponsePlayer) :
    Except JsonErr ResponsePlayer :=
  match j with
  | Json.null => Except.ok cur
  | Json.obj fs => decodePlayerFields cur fs
  | _ => Except.error JsonErr.typeMismatch

/-- Unmarshal a JSON array into the `Sample` slice: a fresh slice with
each element decoded into a zeroed element. -/
def decodeSampleElems : List Json → Except JsonErr (List ResponsePlayer)
  | [] => Except.ok []
  | j :: rest =>
    match decodePlayer j ⟨"", ""⟩ with
    | Except.error e => Except.error e
    | Except.ok p =>
      match decodeSampleElems rest with
      | Except.error e => Except.error e
      | Except.ok ps => Except.ok (p :: ps)

/-- Unmarshal into the `[]…` sample field: null sets the slice to nil. -/
def decodeSample (j : Json) : Except JsonErr (List ResponsePlayer) :=
  match j with
  | Json.null => Except.ok []
  | Json.arr xs => decodeSampleElems xs
  | _ => Except.error JsonErr.typeMismatch

def updateVersion (v : ResponseVersion) (kv : String × Json) :
    Except JsonErr ResponseVersion :=
  if jsonKeyMatches kv.1 "name" then
    (decodeString kv.2 v.name).map fun s => { v with name := s }
  else if jsonKeyMatches kv.1 "protocol" then
    (decodeInt kv.2 v.protocol).map fun n => { v with protocol := n }
  else Except.ok v

def decodeVersionFields (v : ResponseVersion) :
    List (String × Json) → Except JsonErr ResponseVersion
  | [] => Except.ok v
  | kv :: rest =>
    match updateVersion v kv with
    | Except.error e => Except.error e
    | Except.ok w => decodeVersionFields w rest

def decodeVersion (j : Json) (cur : ResponseVersion) :
    Except JsonErr ResponseVersion :=
  match j with
  | Json.null => Except.ok cur
  | Json.obj fs => decodeVersionFields cur fs
  | _ => Except.error JsonErr.typeMismatch

def updatePlayers (p : ResponsePlayers) (kv : String × Json) :
    Except JsonErr ResponsePlayers :=
  if jsonKeyMatches kv.1 "max" then
    (decodeInt kv.2 p.max).map fun n => { p with max := n }
  else if jsonKeyMatches kv.1 "online" then
    (decodeInt kv.2 p.online).map fun n => { p with online := n }
  else if jsonKeyMatches kv.1 "sample" then
    (decodeSample kv.2).map fun s => { p with sample := s }
  else Except.ok p

def decodePlayersFields (p : ResponsePlayers) :
    List (String × Json) → Except JsonErr ResponsePlayers
  | [] => Except.ok p
  | kv :: rest =>
    match updatePlayers p kv with
    | Except.error e => Except.error e
    | Except.ok q => decodePlayersFields q rest

def decodePlayers (j : Json) (cur : ResponsePlayers) :
    Except JsonErr ResponsePlayers :=
  match j with
  | Json.null => Except.ok cur
  | Json.obj fs => decodePlayersFields cur fs
  | _ => Except.error JsonErr.typeMismatch

/-- One key of the top-level object applied to the `Response` being
built: `version`, `players`, `description` (raw message: any value,
stored verbatim), `favicon`; unknown keys are ignored. -/
def updateResponse (r : Response) (kv : String × Json) :
    Except JsonErr Response :=
  if jsonKeyMatches kv.1 "version" then
    (decodeVersion kv.2 r.version).map fun v => { r with version := v }
  else if jsonKeyMatches kv.1 "players" then
    (decodePlayers kv.2 r.players).map fun p => { r with players := p }
  else if jsonKeyMatches kv.1 "description" then
    Except.ok { r with description := some kv.2 }
  else if jsonKeyMatches kv.1 "favicon" then
    (decodeString kv.2 r.favicon).map fun s => { r with favicon := s }
  else Except.ok r

def decodeResponseFields (r : Response) :
    List (String × Json) → Except JsonErr Response
  | [] => Except.ok r
  | kv :: rest =>
    match updateResponse r kv with
    | Except.error e => Except.error e
    | Except.ok q => decodeResponseFields q rest

/-- `json.Unmarshal(payload, &resp)` on the parsed payload: the value
must be an object (decoded key by key into the zero `Response`) or
null (which leaves the zero value); anything else is a type error. -/
def unmarshalResponse (j : Json) : Except JsonErr Response :=
  match j with
  | Json.null => Except.ok zeroResponse
  | Json.obj fs => decodeResponseFields zeroResponse fs
  | _ => Except.error JsonErr.typeMismatch

/-! Shape predicates: the values each field position accepts.  These
restate, per position, which shapes the decoders accept; the lemma
`decodeResponseFields_ok` proves the decoders succeed exactly on them. -/

def strOk : Json → Bool
  | Json.null => true
  | Json.str _ => true
  | _ => false

def intOk : Json → Bool
  | Json.null => true
  | Json.num _ => true
  | _ => false

def playerFieldOk (kv : String × Json) : Bool :=
  if jsonKeyMatches kv.1 "name" then strOk kv.2
  else if jsonKeyMatches kv.1 "id" then strOk kv.2
  else true

def playerOk : Json → Bool
  | Json.null => true
  | Json.obj fs => fs.all playerFieldOk
  | _ => false

def sampleOk : Json → Bool
  | Json.null => true
  | Json.arr xs => xs.all playerOk
  | _ => false

def versionFieldOk (kv : String × Json) : Bool :=
  if jsonKeyMatches kv.1 "name" then strOk kv.2
  else if jsonKeyMatches kv.1 "protocol" then intOk kv.2
  else true

def versionOk : Json → Bool
  | Json.null => true
  | Json.obj fs => fs.all versionFieldOk
  | _ => false

def playersFieldOk (kv : String × Json) : Bool :=
  if jsonKeyMatches kv.1 "max" then intOk kv.2
  else if jsonKeyMatches kv.1 "online" then intOk kv.2
  else if jsonKeyMatches kv.1 "sample" then sampleOk kv.2
  else true

def playersOk : Json → Bool
  | Json.null => true
  | Json.obj fs => fs.all playersFieldOk
  | _ => false

def responseFieldOk (kv : String × Json) : Bool :=
  if jsonKeyMatches kv.1 "version" then versionOk kv.2
  else if jsonKeyMatches kv.1 "players" then playersOk kv.2
  else if jsonKeyMatches kv.1 "description" then true
  else if jsonKeyMatches kv.1 "favicon" then strOk kv.2
  else true

theorem putUvarint_small {x : Nat} (h : x < 0x80) : putUvarint x = [x] := by
  rw [putUvarint]
  simp [Nat.not_le.mpr h]

theorem putUvarint_big {x : Nat} (h : 0x80 ≤ x) :
    putUvarint x = (x % 0x80 + 0x80) :: putUvarint (x / 0x80) := by
  rw [putUvarint]
  simp [h]

theorem putUvarint_ne_nil (x : Nat) : putUvarint x ≠ [] := by
  by_cases h : 0x80 ≤ x
  · rw [putUvarint_big h]; simp
  · rw [putUvarint_small (by omega)]; simp

example : readUvarint [0x80, 0x01] = Except.ok (128, []) := rfl

example : readUvarint [0x7f] = Except.ok (127, []) := rfl

example : readUvarint [0x80] = Except.error ReadErr.eof := rfl

/-! ### Arithmetic facts about the varint codec -/

/-- Accumulating a fresh 7-bit-shifted group with `|||` is addition when
the accumulator fits below the shift. -/
theorem lor_shiftLeft_eq_add {x : Nat} (b s : Nat) (hx : x < 2 ^ s) :
    x ||| (b <<< s) = x + b * 2 ^ s := by
  rw [Nat.shiftLeft_eq, Nat.lor_comm, Nat.mul_comm b (2 ^ s),
    ← Nat.mul_add_lt_is_or hx]
  omega

theorem uvarintLen_pos (x : Nat) : 1 ≤ uvarintLen x := by
  unfold uvarintLen
  by_cases h : 0x80 ≤ x
  · rw [putUvarint_big h]; simp
  · rw [putUvarint_small (by omega)]; simp

theorem uvarintLen_big {x : Nat} (h : 0x80 ≤ x) :
    uvarintLen x = uvarintLen (x / 0x80) + 1 := by
  unfold uvarintLen
  rw [putUvarint_big h]
  simp

/-- The encoding never uses more 7-bit groups than needed: any group
count that can hold the value bounds the encoded length. -/
theorem uvarintLen_le (x : Nat) :
    ∀ n, 0 < n → x < 2 ^ (7 * n) → uvarintLen x ≤ n := by
  induction x using Nat.strong_induction_on with
  | _ x ih =>
    intro n hn hx
    by_cases h : 0x80 ≤ x
    · have hn2 : 2 ≤ n := by
        rcases Nat.lt_or_ge n 2 with h2 | h2
        · interval_cases n
          omega
        · exact h2
      have hdiv : x / 0x80 < 2 ^ (7 * (n - 1)) := by
        apply Nat.div_lt_of_lt_mul
        have : (2 : Nat) ^ (7 * (n - 1)) * 0x80 = 2 ^ (7 * n) := by
          rw [show (0x80 : Nat) = 2 ^ 7 from rfl, ← Nat.pow_add]
          congr 1
          omega
        omega
      have := ih (x / 0x80) (Nat.div_lt_self (by omega) (by omega))
        (n - 1) (by omega) hdiv
      rw [uvarintLen_big h]
      omega
    · have := uvarintLen_pos x
      unfold uvarintLen at *
      rw [putUvarint_small (by omega)]
      simpa using hn

/-- The encoded length is sufficient: the value fits in its groups. -/
theorem lt_two_pow_uvarintLen (x : Nat) : x < 2 ^ (7 * uvarintLen x) := by
  induction x using Nat.strong_induction_on with
  | _ x ih =>
    by_cases h : 0x80 ≤ x
    · have hd := ih (x / 0x80) (Nat.div_lt_self (by omega) (by omega))
      rw [uvarintLen_big h]
      have : (2 : Nat) ^ (7 * (uvarintLen (x / 0x80) + 1)) =
          2 ^ (7 * uvarintLen (x / 0x80)) * 0x80 := by
        ring
      rw [this]
      have := Nat.div_add_mod x 0x80
      have := Nat.mod_lt x (show 0 < 0x80 by omega)
      nlinarith [Nat.div_add_mod x 0x80]
    · rw [show uvarintLen x = 1 by unfold uvarintLen; rw [putUvarint_small (by omega)]; rfl]
      omega

/-- Round-trip of the decode loop over an encoded value followed by
arbitrary trailing bytes, stated with loop-invariant hypotheses. -/
theorem readUvarintAux_putUvarint :
    ∀ v i x s rest, i ≤ 9 → v < 2 ^ (64 - 7 * i) → s = 7 * i → x < 2 ^ s →
      readUvarintAux i x s (putUvarint v ++ rest) =
        Except.ok (x + v * 2 ^ s, rest) := by
  intro v
  induction v using Nat.strong_induction_on with
  | _ v ih =>
    intro i x s rest hi hv hs hx
    by_cases h : 0x80 ≤ v
    · -- continuation byte `v % 0x80 + 0x80`
      have hi8 : i ≤ 8 := by
        rcases Nat.lt_or_ge i 9 with h9 | h9
        · omega
        · exfalso
          have : i = 9 := by omega
          subst this
          simp only [show 64 - 7 * 9 = 1 by norm_num] at hv
          omega
      rw [putUvarint_big h]
      simp only [List.cons_append, readUvarintAux]
      rw [if_neg (by omega), if_neg (by omega)]
      have hand : (v % 0x80 + 0x80) &&& 0x7f = v % 0x80 := by
        have h1 := Nat.and_pow_two_sub_one_eq_mod (v % 0x80 + 0x80) 7
        simpa using h1
      rw [hand]
      have hlor : x ||| ((v % 0x80) <<< s) = x + (v % 0x80) * 2 ^ s :=
        lor_shiftLeft_eq_add _ s hx
      rw [hlor]
      have hx2 : x + (v % 0x80) * 2 ^ s < 2 ^ (s + 7) := by
        have h1 : (v % 0x80) ≤ 0x7f := by omega
        have h2 : (2 : Nat) ^ (s + 7) = 2 ^ s * 0x80 := by
          rw [Nat.pow_add]
        have h3 : (v % 0x80) * 2 ^ s ≤ 0x7f * 2 ^ s :=
          Nat.mul_le_mul_right _ h1
        have h4 : (0 : Nat) < 2 ^ s := Nat.pos_pow_of_pos _ (by omega)
        nlinarith
      have hdv : v / 0x80 < 2 ^ (64 - 7 * (i + 1)) := by
        apply Nat.div_lt_of_lt_mul
        have : (2 : Nat) ^ (64 - 7 * (i + 1)) * 0x80 = 2 ^ (64 - 7 * i) := by
          rw [show (0x80 : Nat) = 2 ^ 7 from rfl, ← Nat.pow_add]
          congr 1
          omega
        omega
      simp only [List.append_eq]
      rw [ih (v / 0x80) (Nat.div_lt_self (by omega) (by omega))
        (i + 1) _ _ rest (by omega) hdv (by omega) hx2]
      congr 2
      have hsplit : v = 0x80 * (v / 0x80) + v % 0x80 := (Nat.div_add_mod v 0x80).symm
      have hpow : (2 : Nat) ^ (s + 7) = 2 ^ s * 0x80 := by
        rw [Nat.pow_add]
      calc x + (v % 0x80) * 2 ^ s + v / 0x80 * 2 ^ (s + 7)
          = x + (v % 0x80) * 2 ^ s + v / 0x80 * (2 ^ s * 0x80) := by rw [hpow]
        _ = x + (0x80 * (v / 0x80) + v % 0x80) * 2 ^ s := by ring
        _ = x + v * 2 ^ s := by rw [← hsplit]
    · -- terminating byte `v`
      rw [putUvarint_small (by omega)]
      simp only [List.cons_append, readUvarintAux]
      rw [if_neg (by omega), if_pos (show v < 0x80 by omega)]
      have hguard : ¬(i = 9 ∧ 1 < v) := by
        rintro ⟨h9, hv1⟩
        subst h9
        simp only [show 64 - 7 * 9 = 1 by norm_num] at hv
        omega
      rw [if_neg hguard]
      rw [lor_shiftLeft_eq_add v s hx]
      rfl

/-- Round-trip of `binary.ReadUvarint` over `binary.PutUvarint`, for any
value representable as a `uint64` and any trailing stream. -/
theorem readUvarint_putUvarint {v : Nat} (rest : List Nat) (hv : v < 2 ^ 64) :
    readUvarint (putUvarint v ++ rest) = Except.ok (v, rest) := by
  unfold readUvarint
  rw [readUvarintAux_putUvarint v 0 0 0 rest (by omega) (by simpa using hv) rfl
    (by norm_num)]
  norm_num

/-- If every byte carries the continuation bit and at most 9 bytes
arrive, the stream ends before a terminating byte: the decode loop
reports the reader's end-of-stream error. -/
theorem readUvarintAux_all_continuation :
    ∀ (bs : List Nat) (i x s : Nat), (∀ b ∈ bs, 0x80 ≤ b) →
      i + bs.length ≤ 9 →
      readUvarintAux i x s bs = Except.error ReadErr.eof := by
  intro bs
  induction bs with
  | nil =>
    intro i x s _ hlen
    simp only [readUvarintAux]
    rw [if_neg (by simp at hlen; omega)]
  | cons b rest ih =>
    intro i x s hall hlen
    simp only [readUvarintAux]
    have hb : 0x80 ≤ b := hall b (by simp)
    rw [if_neg (by simp at hlen; omega), if_neg (by omega)]
    exact ih (i + 1) _ _ (fun c hc => hall c (by simp [hc]))
      (by simp at hlen ⊢; omega)

/-- Encodings of values past the `uint64` range hit Go's 64-bit
overflow check in the decode loop. -/
theorem readUvarintAux_putUvarint_overflow :
    ∀ v i x s rest, i ≤ 9 → 2 ^ (64 - 7 * i) ≤ v →
      readUvarintAux i x s (putUvarint v ++ rest) =
        Except.error ReadErr.overflow := by
  intro v
  induction v using Nat.strong_induction_on with
  | _ v ih =>
    intro i x s rest hi hv
    by_cases h : 0x80 ≤ v
    · rw [putUvarint_big h]
      simp only [List.cons_append, readUvarintAux]
      rw [if_neg (by omega), if_neg (by omega)]
      by_cases h9 : i = 9
      · subst h9
        rcases List.exists_cons_of_ne_nil (putUvarint_ne_nil (v / 0x80)) with
          ⟨c, cs, hc⟩
        rw [hc]
        simp [readUvarintAux]
      · have hdv : 2 ^ (64 - 7 * (i + 1)) ≤ v / 0x80 := by
          rw [Nat.le_div_iff_mul_le (by omega)]
          have : (2 : Nat) ^ (64 - 7 * (i + 1)) * 0x80 = 2 ^ (64 - 7 * i) := by
            rw [show (0x80 : Nat) = 2 ^ 7 from rfl, ← Nat.pow_add]
            congr 1
            omega
          omega
        simp only [List.append_eq]
        exact ih (v / 0x80) (Nat.div_lt_self (by omega) (by omega))
          (i + 1) _ _ rest (by omega) hdv
    · -- a value this large cannot terminate unless i = 9 and v ≥ 2
      have hi9 : i = 9 := by
        by_contra hne
        have : 64 - 7 * i ≥ 8 := by omega
        have : (2 : Nat) ^ 8 ≤ 2 ^ (64 - 7 * i) :=
          Nat.pow_le_pow_right (by omega) this
        omega
      subst hi9
      have hv2 : 2 ≤ v := by
        have : (2 : Nat) ^ 1 ≤ 2 ^ (64 - 7 * 9) := by norm_num
        omega
      rw [putUvarint_small (by omega)]
      simp only [List.cons_append, readUvarintAux]
      simp [show (1 : Nat) < v by omega, show v < 0x80 by omega]

/-- Counterexample to Claim C3 as stated: the decoder imposes no 32-bit
bound.  The 5-byte encoding of `2^32` (a value that overflows 32 bits)
decodes successfully instead of failing. -/
theorem readUvarint_no_32bit_check :
    readUvarint [0x80, 0x80, 0x80, 0x80, 0x10] = Except.ok (2 ^ 32, []) ∧
    putUvarint (2 ^ 32) = [0x80, 0x80, 0x80, 0x80, 0x10] := by
  constructor
  · rfl
  · norm_num [putUvarint_big, putUvarint_small]

/-- Claim C3 (amended): the varint decoder used for the response's
length, packet-ID, and payload-length fields fails if the stream ends
before a byte with the high bit clear is seen, or if the encoded value
would overflow 64 bits (Go's `binary.ReadUvarint` reads at most 10
bytes and checks the final one); every value below `2^64` — including
all values that overflow 32 bits — decodes successfully. -/
theorem readUvarint_error_characterization :
    (∀ bs : List Nat, (∀ b ∈ bs, 0x80 ≤ b) → bs.length ≤ 9 →
      readUvarint bs = Except.error ReadErr.eof) ∧
    (∀ (v : Nat) (rest : List Nat), 2 ^ 64 ≤ v →
      readUvarint (putUvarint v ++ rest) = Except.error ReadErr.overflow) ∧
    (∀ (v : Nat) (rest : List Nat), v < 2 ^ 64 →
      readUvarint (putUvarint v ++ rest) = Except.ok (v, rest)) := by
  refine ⟨?_, ?_, ?_⟩
  · intro bs hall hlen
    exact readUvarintAux_all_continuation bs 0 0 0 hall (by omega)
  · intro v rest hv
    exact readUvarintAux_putUvarint_overflow v 0 0 0 rest (by omega)
      (by simpa using hv)
  · intro v rest hv
    exact readUvarint_putUvarint rest hv

/-- Witness for C3 (amended) at concrete streams: a truncated
continuation-only stream, an overflowing 10-byte value, and a plain
1-byte value. -/
theorem readUvarint_error_characterization_witness :
    readUvarint [0x80, 0x80] = Except.error ReadErr.eof ∧
    readUvarint (putUvarint (2 ^ 64) ++ []) = Except.error ReadErr.overflow ∧
    readUvarint (putUvarint 5 ++ []) = Except.ok (5, []) :=
  ⟨readUvarint_error_characterization.1 [0x80, 0x80]
      (by intro b hb; simp at hb; omega) (by simp),
    readUvarint_error_characterization.2.1 (2 ^ 64) [] (by norm_num),
    readUvarint_error_characterization.2.2 5 [] (by norm_num)⟩

/-- Claim C6: the response reader fails with the unexpected-packet-ID
error, returning no payload, for every stream whose second varint is
non-zero; the concrete stream `varint(2) | varint(5) | varint(0)` is
rejected this way; and with packet ID 0 it proceeds to the payload
stage. -/
theorem response_reader_packet_id :
    (∀ (bs bs1 bs2 : List Nat) (len pid : Nat),
      readUvarint bs = Except.ok (len, bs1) →
      readUvarint bs1 = Except.ok (pid, bs2) →
      (pid ≠ 0 → readResponsePayload bs =
        Except.error (PingErr.unexpectedPacketId pid)) ∧
      (pid = 0 → readResponsePayload bs = readPayloadField bs2)) ∧
    readResponsePayload [2, 5, 0] =
      Except.error (PingErr.unexpectedPacketId 5) := by
  constructor
  · intro bs bs1 bs2 len pid h1 h2
    constructor
    · intro hpid
      simp [readResponsePayload, h1, h2, hpid]
    · intro hpid
      simp [readResponsePayload, h1, h2, hpid]
  · rfl

/-- Witness for C6: the reject branch at `varint(2)|varint(5)|varint(0)`
and the accept branch at packet ID 0. -/
theorem response_reader_packet_id_witness :
    readResponsePayload [2, 5, 0] =
      Except.error (PingErr.unexpectedPacketId 5) ∧
    readResponsePayload [2, 0, 0] = readPayloadField [0] :=
  ⟨(response_reader_packet_id.1 [2, 5, 0] [5, 0] [0] 2 5 rfl rfl).1
      (by decide),
    (response_reader_packet_id.1 [2, 0, 0] [0, 0] [0] 2 0 rfl rfl).2 rfl⟩

/-- Claim C8: the outer packet-length varint is read and discarded
without validation: two response streams that continue identically
after their first varint produce identical outcomes, whatever values
those first varints encode. -/
theorem outer_length_not_validated :
    ∀ (b1 b2 rest : List Nat) (v1 v2 : Nat),
      readUvarint b1 = Except.ok (v1, rest) →
      readUvarint b2 = Except.ok (v2, rest) →
      readResponsePayload b1 = readResponsePayload b2 := by
  intro b1 b2 rest v1 v2 h1 h2
  simp [readResponsePayload, h1, h2]

/-- Witness for C8: outer lengths 0 and 99 over the same remainder. -/
theorem outer_length_not_validated_witness :
    readResponsePayload [0, 0, 0] = readResponsePayload [99, 0, 0] :=
  outer_length_not_validated [0, 0, 0] [99, 0, 0] [0, 0] 0 99 rfl rfl

theorem join_map_singleton (bs : List Nat) :
    (bs.map fun b => [b]).flatten = bs := by
  induction bs with
  | nil => rfl
  | cons b t ih => simp [ih]

/-- Closed form of the accumulation loop: it succeeds with exactly the
first `n` outstanding bytes when the stream carries enough, and fails
when it does not — independent of how the bytes are split into reads. -/
theorem readFullChunks_spec :
    ∀ (chunks : List (List Nat)) (n : Nat) (acc : List Nat),
      acc.length ≤ n →
      readFullChunks n acc chunks =
        if acc.length + chunks.flatten.length < n then
          Except.error PingErr.truncated
        else Except.ok (acc ++ chunks.flatten.take (n - acc.length)) := by
  intro chunks
  induction chunks with
  | nil =>
    intro n acc hacc
    simp [readFullChunks]
  | cons c rest ih =>
    intro n acc hacc
    simp only [readFullChunks, List.flatten_cons]
    by_cases hfull : n ≤ acc.length
    · have heq : acc.length = n := by omega
      rw [if_pos hfull, if_neg (by omega)]
      simp [heq]
    · rw [if_neg hfull]
      by_cases hc : c.length ≤ n - acc.length
      · rw [List.take_of_length_le hc]
        rw [ih n (acc ++ c) (by rw [List.length_append]; omega)]
        simp only [List.length_append]
        by_cases hcond : acc.length + (c.length + rest.flatten.length) < n
        · rw [if_pos (by omega), if_pos (by omega)]
        · rw [if_neg (by omega), if_neg (by omega)]
          rw [List.append_assoc]
          congr 1
          rw [List.take_append_eq_append_take, List.take_of_length_le hc,
            ← Nat.sub_sub]
      · have hlen : (acc ++ List.take (n - acc.length) c).length = n := by
          rw [List.length_append, List.length_take]
          omega
        rw [ih n _ (le_of_eq hlen)]
        rw [if_neg (by rw [hlen]; omega),
          if_neg (by rw [List.length_append]; omega)]
        rw [hlen, Nat.sub_self, List.take_zero, List.append_nil]
        congr 1
        rw [List.take_append_eq_append_take,
          show n - acc.length - c.length = 0 by omega]
        simp

/-- Claim C5: the payload read loops/accumulates until the declared
length is satisfied: for every chunking of the stream, a short read is
never mistaken for completion (the result always has exactly the
declared length when enough bytes exist, even one byte per read), and
the loop fails with the truncation error when the stream ends short;
the flat-stream `io.ReadFull` model used in `readResponsePayload`
agrees with the loop. -/
theorem payload_read_accumulates :
    (∀ (n : Nat) (chunks : List (List Nat)),
      (chunks.flatten.length < n →
        readFullChunks n [] chunks = Except.error PingErr.truncated) ∧
      (n ≤ chunks.flatten.length →
        readFullChunks n [] chunks = Except.ok (chunks.flatten.take n) ∧
        (chunks.flatten.take n).length = n)) ∧
    (∀ (n : Nat) (bs : List Nat), n ≤ bs.length →
      readFullChunks n [] (bs.map fun b => [b]) = Except.ok (bs.take n) ∧
      (bs.take n).length = n) ∧
    (∀ (n : Nat) (bs : List Nat),
      readFullList n bs = readFullChunks n [] [bs]) := by
  have hmain : ∀ (n : Nat) (chunks : List (List Nat)),
      readFullChunks n [] chunks =
        if chunks.flatten.length < n then Except.error PingErr.truncated
        else Except.ok (chunks.flatten.take n) := by
    intro n chunks
    rw [readFullChunks_spec chunks n [] (by simp)]
    simp
  refine ⟨?_, ?_, ?_⟩
  · intro n chunks
    constructor
    · intro hshort
      rw [hmain]
      rw [if_pos hshort]
    · intro henough
      refine ⟨?_, ?_⟩
      · rw [hmain, if_neg (by omega)]
      · rw [List.length_take]
        omega
  · intro n bs hlen
    constructor
    · rw [hmain, join_map_singleton, if_neg (by omega)]
    · rw [List.length_take]
      omega
  · intro n bs
    rw [hmain]
    unfold readFullList
    simp

/-- Witness for C5: a 4-byte stream delivered one byte per read,
against a declared length of 3. -/
theorem payload_read_accumulates_witness :
    readFullChunks 3 [] ([10, 20, 30, 40].map fun b => [b]) =
      Except.ok [10, 20, 30] ∧
    ([10, 20, 30, 40].take 3).length = 3 :=
  payload_read_accumulates.2.1 3 [10, 20, 30, 40] (by simp)

theorem toInt32_lt (z : Int) : toInt32 z < 2 ^ 31 := by
  unfold toInt32
  split <;> omega

theorem toInt32_ofNat {v : Nat} (h : v < 2 ^ 31) :
    toInt32 (Int.ofNat v) = Int.ofNat v := by
  unfold toInt32
  simp only [Int.ofNat_eq_natCast]
  rw [if_pos (by omega)]
  omega

theorem putVarInt_ofNat {v : Nat} (h : v < 2 ^ 31) :
    putVarInt (Int.ofNat v) = some (putUvarint v) := by
  unfold putVarInt
  rw [toInt32_ofNat h]
  have h64 : uint64OfInt32 (Int.ofNat v) = v := by
    unfold uint64OfInt32
    simp only [Int.ofNat_eq_natCast]
    omega
  rw [h64]
  have hlen : (putUvarint v).length ≤ 5 :=
    uvarintLen_le v 5 (by omega) (lt_of_lt_of_le h (by norm_num))
  rw [if_pos hlen]

theorem uvarintLen_gt_five {x : Nat} (h : 2 ^ 35 ≤ x) :
    ¬ (putUvarint x).length ≤ 5 := by
  intro hle
  have hfit := lt_two_pow_uvarintLen x
  have hb : (2 : Nat) ^ (7 * uvarintLen x) ≤ 2 ^ 35 :=
    Nat.pow_le_pow_right (by omega) (by
      show 7 * uvarintLen x ≤ 35
      have : uvarintLen x ≤ 5 := hle
      omega)
  omega

/-- Claim C1: for every non-negative 32-bit integer `v`, decoding the
bytes produced by the varint encoder `putVarInt` (which for such `v`
are exactly `binary.PutUvarint`'s bytes for `v`) yields `v` back
together with the number of bytes consumed, and the encoded length is
the minimal number of 7-bit groups needed; in particular 0 and 127
encode to 1 byte, 128 to 2 bytes, and 2^31 - 1 to 5 bytes. -/
theorem varint_roundtrip_minimal :
    (∀ v : Nat, v < 2 ^ 31 →
      putVarInt (Int.ofNat v) = some (putUvarint v) ∧
      decodeUvarint (putUvarint v) = Except.ok (v, uvarintLen v) ∧
      v < 2 ^ (7 * uvarintLen v) ∧
      (∀ n, 0 < n → v < 2 ^ (7 * n) → uvarintLen v ≤ n)) ∧
    uvarintLen 0 = 1 ∧ uvarintLen 127 = 1 ∧ uvarintLen 128 = 2 ∧
    uvarintLen (2 ^ 31 - 1) = 5 := by
  constructor
  · intro v hv
    refine ⟨putVarInt_ofNat hv, ?_, lt_two_pow_uvarintLen v, uvarintLen_le v⟩
    unfold decodeUvarint
    have h1 : readUvarint (putUvarint v ++ []) = Except.ok (v, []) :=
      readUvarint_putUvarint [] (by
        have : (2 : Nat) ^ 31 ≤ 2 ^ 64 := Nat.pow_le_pow_right (by omega) (by omega)
        omega)
    rw [List.append_nil] at h1
    rw [h1]
    simp [uvarintLen]
  · refine ⟨?_, ?_, ?_, ?_⟩
    · rw [uvarintLen, putUvarint_small (by omega)]
      rfl
    · rw [uvarintLen, putUvarint_small (by omega)]
      rfl
    · rw [uvarintLen, putUvarint_big (by omega), putUvarint_small (by omega)]
      rfl
    · norm_num [uvarintLen, putUvarint_big, putUvarint_small]

/-- Witness for C1 at `v = 300` (2-byte encoding). -/
theorem varint_roundtrip_minimal_witness :
    putVarInt (Int.ofNat 300) = some (putUvarint 300) ∧
    decodeUvarint (putUvarint 300) = Except.ok (300, uvarintLen 300) ∧
    uvarintLen 300 ≤ 2 := by
  have h := (varint_roundtrip_minimal.1 300 (by norm_num))
  exact ⟨h.1, h.2.1, h.2.2.2 2 (by norm_num) (by norm_num)⟩

theorem putVarInt_neg_one : putVarInt (-1) = none := by
  unfold putVarInt
  have ht : toInt32 (-1) = -1 := by
    unfold toInt32
    split <;> omega
  rw [ht]
  have h64 : uint64OfInt32 (-1) = 2 ^ 64 - 1 := by
    unfold uint64OfInt32
    omega
  rw [h64]
  rw [if_neg (uvarintLen_gt_five (by norm_num))]

/-- Counterexample to Claim C4 as stated: `makeHandshakePacket` is not
total over all protocol versions.  At the in-range address `"x"` and
port 25565, protocol version `-1` makes `putVarInt` overflow its
5-byte `binary.MaxVarintLen32` buffer (Go panics with an
index-out-of-range), because `uint64(int32(-1)) = 2^64 - 1` needs 10
varint bytes. -/
theorem makeHandshakePacket_panics_on_negative_protocol :
    makeHandshakePacket [120] 25565 (-1) = none := by
  simp [makeHandshakePacket, putVarInt_neg_one]

/-- Claim C4 (amended): packet construction succeeds — never fails or
panics — for every address whose byte length stays below `2^31 - 14`
(so every length passed to `putVarInt`, the address's and the body's,
is a non-negative `int32`), every port, and every protocol version
whose `int32` truncation is non-negative; negative-`int32` protocol
versions panic (see the counterexample). -/
theorem handshake_no_error_paths (address : List Nat) (port : Nat)
    (pv : Int) (hpv : 0 ≤ toInt32 pv)
    (haddr : address.length + 14 < 2 ^ 31) :
    (makeHandshakePacket address port pv).isSome := by
  have h31 := toInt32_lt pv
  have hpvB : putVarInt pv = some (putUvarint (toInt32 pv).toNat) := by
    unfold putVarInt
    have h64 : uint64OfInt32 (toInt32 pv) = (toInt32 pv).toNat := by
      unfold uint64OfInt32
      omega
    rw [h64]
    have hlen : (putUvarint (toInt32 pv).toNat).length ≤ 5 :=
      uvarintLen_le _ 5 (by omega) (by
        have : (toInt32 pv).toNat < 2 ^ 31 := by omega
        exact lt_of_lt_of_le this (by norm_num))
    rw [if_pos hlen]
  have halB : putVarInt (Int.ofNat address.length) =
      some (putUvarint address.length) := putVarInt_ofNat (by omega)
  have hnsB : putVarInt 1 = some [1] := by
    have h1 : putVarInt (Int.ofNat 1) = some (putUvarint 1) :=
      putVarInt_ofNat (by norm_num)
    rw [putUvarint_small (by norm_num)] at h1
    exact h1
  have hpvLen : (putUvarint (toInt32 pv).toNat).length ≤ 5 :=
    uvarintLen_le _ 5 (by omega) (by
      have : (toInt32 pv).toNat < 2 ^ 31 := by omega
      exact lt_of_lt_of_le this (by norm_num))
  have halLen : (putUvarint address.length).length ≤ 5 :=
    uvarintLen_le _ 5 (by omega)
      (lt_of_lt_of_le (show address.length < 2 ^ 31 by omega) (by norm_num))
  have hbody : ([0] ++ putUvarint (toInt32 pv).toNat ++
      putUvarint address.length ++ address ++ u16be port ++ [1]).length
      < 2 ^ 31 := by
    simp only [List.length_append, List.length_cons, List.length_nil, u16be]
    omega
  unfold makeHandshakePacket
  rw [hpvB, Option.some_bind, halB, Option.some_bind, hnsB, Option.some_bind]
  rw [putVarInt_ofNat hbody, Option.some_bind]
  rfl

/-- Claim C2: under the documented preconditions, the handshake packet
is exactly `varint(len) | 0x00 | varint(protocolVersion) |
varint(len(address)) | address bytes | port big-endian | varint(1)`,
and its leading varint decodes to exactly the number of bytes that
follow it. -/
theorem handshake_packet_layout (address : List Nat) (port : Nat)
    (pv : Nat) (body : List Nat)
    (hbody : body = [0] ++ putUvarint pv ++ putUvarint address.length ++
      address ++ [port / 256, port % 256] ++ [1])
    (hpv : pv < 2 ^ 31) (hport : port < 2 ^ 16)
    (haddr : address.length + 14 < 2 ^ 31) :
    makeHandshakePacket address port (Int.ofNat pv) =
      some (putUvarint body.length ++ body) ∧
    readUvarint (putUvarint body.length ++ body) =
      Except.ok (body.length, body) := by
  have hu16 : u16be port = [port / 256, port % 256] := by
    unfold u16be
    congr 1
    omega
  have hpvB : putVarInt (Int.ofNat pv) = some (putUvarint pv) :=
    putVarInt_ofNat hpv
  have halB : putVarInt (Int.ofNat address.length) =
      some (putUvarint address.length) := putVarInt_ofNat (by omega)
  have hnsB : putVarInt 1 = some [1] := by
    have h1 : putVarInt (Int.ofNat 1) = some (putUvarint 1) :=
      putVarInt_ofNat (by norm_num)
    rw [putUvarint_small (by norm_num)] at h1
    exact h1
  have hpvLen : (putUvarint pv).length ≤ 5 :=
    uvarintLen_le _ 5 (by omega) (lt_of_lt_of_le hpv (by norm_num))
  have halLen : (putUvarint address.length).length ≤ 5 :=
    uvarintLen_le _ 5 (by omega)
      (lt_of_lt_of_le (show address.length < 2 ^ 31 by omega) (by norm_num))
  rw [← hu16] at hbody
  subst hbody
  have hblen : ([0] ++ putUvarint pv ++ putUvarint address.length ++
      address ++ u16be port ++ [1]).length < 2 ^ 31 := by
    simp only [List.length_append, List.length_cons, List.length_nil, u16be]
    omega
  constructor
  · unfold makeHandshakePacket
    rw [hpvB, Option.some_bind, halB, Option.some_bind, hnsB,
      Option.some_bind]
    rw [putVarInt_ofNat hblen, Option.some_bind]
  · exact readUvarint_putUvarint _
      (lt_of_lt_of_le hblen (by norm_num))

/-- Witness for C2 at the spec's example `buildHandshakePacket("x",
25565, 0)`: address `"x"` is byte 120, 25565 is `0x63DD`. -/
theorem handshake_packet_layout_witness :
    makeHandshakePacket [120] 25565 (Int.ofNat 0) =
      some (putUvarint ([0, 0, 1, 120, 99, 221, 1] : List Nat).length ++
        [0, 0, 1, 120, 99, 221, 1]) ∧
    readUvarint (putUvarint ([0, 0, 1, 120, 99, 221, 1] : List Nat).length ++
        [0, 0, 1, 120, 99, 221, 1]) =
      Except.ok (([0, 0, 1, 120, 99, 221, 1] : List Nat).length,
        [0, 0, 1, 120, 99, 221, 1]) :=
  handshake_packet_layout [120] 25565 0 [0, 0, 1, 120, 99, 221, 1]
    (by simp [putUvarint_small]) (by norm_num) (by norm_num) (by norm_num)

/-- Witness for C4 (amended) at address `"x"`, port 25565, protocol
version 498 (the source's `LatestProtocolVersion`). -/
theorem handshake_no_error_paths_witness :
    (makeHandshakePacket [120] 25565 498).isSome :=
  handshake_no_error_paths [120] 25565 498 (by decide) (by norm_num)

/-- Claim C7 evidence: `Ping` discards the results of both
`conn.Write` calls, so its outcome is independent of write failures —
it can even succeed, and never reports a write error, when both writes
fail. -/
theorem ping_ignores_write_errors :
    (∀ (hwFails rqFails : Bool) (response : List Nat),
      pingAfterConnect hwFails rqFails response =
        readResponsePayload response) ∧
    pingAfterConnect true true [1, 0, 0] = Except.ok [] :=
  ⟨fun _ _ _ => rfl, rfl⟩

/-- Claim C9: the Request packet is the constant `{0x01, 0x00}`, and
what `Ping` writes as its request is that constant for every input;
the legacy file's `makeRequestPacket` returns the same constant. -/
theorem request_packet_constant :
    requestPacket = [1, 0] ∧ makeRequestPacket = [1, 0] ∧
    ∀ (address : List Nat) (port : Nat) (protocolVersion : Int),
      pingRequestWrite address port protocolVersion = requestPacket :=
  ⟨rfl, rfl, fun _ _ _ => rfl⟩

theorem decodeString_ok (j : Json) (cur : String) :
    (∃ x, decodeString j cur = Except.ok x) ↔ strOk j = true := by
  cases j <;> simp [decodeString, strOk]

theorem decodeInt_ok (j : Json) (cur : Int) :
    (∃ x, decodeInt j cur = Except.ok x) ↔ intOk j = true := by
  cases j <;> simp [decodeInt, intOk]

theorem updatePlayer_ok (p : ResponsePlayer) (k : String) (j : Json) :
    (∃ q, updatePlayer p (k, j) = Except.ok q) ↔
      playerFieldOk (k, j) = true := by
  by_cases h1 : jsonKeyMatches k "name" = true
  · cases j <;> simp [updatePlayer, playerFieldOk, h1, decodeString, strOk,
      Except.map]
  · by_cases h2 : jsonKeyMatches k "id" = true
    · cases j <;> simp [updatePlayer, playerFieldOk, h1, h2, decodeString,
        strOk, Except.map]
    · simp [updatePlayer, playerFieldOk, h1, h2]

theorem decodePlayerFields_ok :
    ∀ (fs : List (String × Json)) (p : ResponsePlayer),
      (∃ q, decodePlayerFields p fs = Except.ok q) ↔
        fs.all playerFieldOk = true := by
  intro fs
  induction fs with
  | nil => intro p; simp [decodePlayerFields]
  | cons kv rest ih =>
    intro p
    obtain ⟨k, j⟩ := kv
    simp only [decodePlayerFields, List.all_cons, Bool.and_eq_true]
    rcases hu : updatePlayer p (k, j) with e | q
    · have hno : ¬ playerFieldOk (k, j) = true := by
        rw [← updatePlayer_ok p k j]
        simp [hu]
      simp [hu, hno]
    · have hok : playerFieldOk (k, j) = true := by
        rw [← updatePlayer_ok p k j]
        exact ⟨q, hu⟩
      simp [hu, hok, ih q]

theorem decodePlayer_ok (j : Json) (cur : ResponsePlayer) :
    (∃ q, decodePlayer j cur = Except.ok q) ↔ playerOk j = true := by
  cases j <;> simp [decodePlayer, playerOk, decodePlayerFields_ok]

theorem decodeSampleElems_ok :
    ∀ xs : List Json,
      (∃ ps, decodeSampleElems xs = Except.ok ps) ↔
        xs.all playerOk = true := by
  intro xs
  induction xs with
  | nil => simp [decodeSampleElems]
  | cons j rest ih =>
    simp only [decodeSampleElems, List.all_cons, Bool.and_eq_true]
    rcases hp : decodePlayer j ⟨"", ""⟩ with e | p
    · have hno : ¬ playerOk j = true := by
        rw [← decodePlayer_ok j ⟨"", ""⟩]
        simp [hp]
      simp [hp, hno]
    · have hok : playerOk j = true := by
        rw [← decodePlayer_ok j ⟨"", ""⟩]
        exact ⟨p, hp⟩
      rcases hr : decodeSampleElems rest with e | ps
      · have hno : ¬ rest.all playerOk = true := by
          rw [← ih]
          simp [hr]
        simp [hp, hr, hok, hno]
      · have hok2 : rest.all playerOk = true := by
          rw [← ih]
          exact ⟨ps, hr⟩
        simp [hp, hr, hok, hok2]

theorem decodeSample_ok (j : Json) :
    (∃ ps, decodeSample j = Except.ok ps) ↔ sampleOk j = true := by
  cases j <;> simp [decodeSample, sampleOk, decodeSampleElems_ok]

theorem updateVersion_ok (v : ResponseVersion) (k : String) (j : Json) :
    (∃ w, updateVersion v (k, j) = Except.ok w) ↔
      versionFieldOk (k, j) = true := by
  by_cases h1 : jsonKeyMatches k "name" = true
  · cases j <;> simp [updateVersion, versionFieldOk, h1, decodeString, strOk,
      Except.map]
  · by_cases h2 : jsonKeyMatches k "protocol" = true
    · cases j <;> simp [updateVersion, versionFieldOk, h1, h2, decodeInt,
        intOk, Except.map]
    · simp [updateVersion, versionFieldOk, h1, h2]

theorem decodeVersionFields_ok :
    ∀ (fs : List (String × Json)) (v : ResponseVersion),
      (∃ w, decodeVersionFields v fs = Except.ok w) ↔
        fs.all versionFieldOk = true := by
  intro fs
  induction fs with
  | nil => intro v; simp [decodeVersionFields]
  | cons kv rest ih =>
    intro v
    obtain ⟨k, j⟩ := kv
    simp only [decodeVersionFields, List.all_cons, Bool.and_eq_true]
    rcases hu : updateVersion v (k, j) with e | w
    · have hno : ¬ versionFieldOk (k, j) = true := by
        rw [← updateVersion_ok v k j]
        simp [hu]
      simp [hu, hno]
    · have hok : versionFieldOk (k, j) = true := by
        rw [← updateVersion_ok v k j]
        exact ⟨w, hu⟩
      simp [hu, hok, ih w]

theorem decodeVersion_ok (j : Json) (cur : ResponseVersion) :
    (∃ w, decodeVersion j cur = Except.ok w) ↔ versionOk j = true := by
  cases j <;> simp [decodeVersion, versionOk, decodeVersionFields_ok]

theorem updatePlayers_ok (p : ResponsePlayers) (k : String) (j : Json) :
    (∃ q, updatePlayers p (k, j) = Except.ok q) ↔
      playersFieldOk (k, j) = true := by
  by_cases h1 : jsonKeyMatches k "max" = true
  · cases j <;> simp [updatePlayers, playersFieldOk, h1, decodeInt, intOk,
      Except.map]
  · by_cases h2 : jsonKeyMatches k "online" = true
    · cases j <;> simp [updatePlayers, playersFieldOk, h1, h2, decodeInt,
        intOk, Except.map]
    · by_cases h3 : jsonKeyMatches k "sample" = true
      · simp only [updatePlayers, playersFieldOk, h1, h2, h3, if_true,
          if_false]
        rcases hs : decodeSample j with e | ps
        · have hno : ¬ sampleOk j = true := by
            rw [← decodeSample_ok j]
            simp [hs]
          simp [hs, hno, Except.map]
        · have hok : sampleOk j = true := by
            rw [← decodeSample_ok j]
            exact ⟨ps, hs⟩
          simp [hs, hok, Except.map]
      · simp [updatePlayers, playersFieldOk, h1, h2, h3]

theorem decodePlayersFields_ok :
    ∀ (fs : List (String × Json)) (p : ResponsePlayers),
      (∃ q, decodePlayersFields p fs = Except.ok q) ↔
        fs.all playersFieldOk = true := by
  intro fs
  induction fs with
  | nil => intro p; simp [decodePlayersFields]
  | cons kv rest ih =>
    intro p
    obtain ⟨k, j⟩ := kv
    simp only [decodePlayersFields, List.all_cons, Bool.and_eq_true]
    rcases hu : updatePlayers p (k, j) with e | q
    · have hno : ¬ playersFieldOk (k, j) = true := by
        rw [← updatePlayers_ok p k j]
        simp [hu]
      simp [hu, hno]
    · have hok : playersFieldOk (k, j) = true := by
        rw [← updatePlayers_ok p k j]
        exact ⟨q, hu⟩
      simp [hu, hok, ih q]

theorem decodePlayers_ok (j : Json) (cur : ResponsePlayers) :
    (∃ q, decodePlayers j cur = Except.ok q) ↔ playersOk j = true := by
  cases j <;> simp [decodePlayers, playersOk, decodePlayersFields_ok]

theorem updateResponse_ok (r : Response) (k : String) (j : Json) :
    (∃ q, updateResponse r (k, j) = Except.ok q) ↔
      responseFieldOk (k, j) = true := by
  by_cases h1 : jsonKeyMatches k "version" = true
  · simp only [updateResponse, responseFieldOk, h1, if_true]
    rcases hv : decodeVersion j r.version with e | v
    · have hno : ¬ versionOk j = true := by
        rw [← decodeVersion_ok j r.version]
        simp [hv]
      simp [hv, hno, Except.map]
    · have hok : versionOk j = true := by
        rw [← decodeVersion_ok j r.version]
        exact ⟨v, hv⟩
      simp [hv, hok, Except.map]
  · by_cases h2 : jsonKeyMatches k "players" = true
    · simp only [updateResponse, responseFieldOk, h1, h2, if_true, if_false]
      rcases hp : decodePlayers j r.players with e | p
      · have hno : ¬ playersOk j = true := by
          rw [← decodePlayers_ok j r.players]
          simp [hp]
        simp [hp, hno, Except.map]
      · have hok : playersOk j = true := by
          rw [← decodePlayers_ok j r.players]
          exact ⟨p, hp⟩
        simp [hp, hok, Except.map]
    · by_cases h3 : jsonKeyMatches k "description" = true
      · simp [updateResponse, responseFieldOk, h1, h2, h3]
      · by_cases h4 : jsonKeyMatches k "favicon" = true
        · cases j <;> simp [updateResponse, responseFieldOk, h1, h2, h3, h4,
            decodeString, strOk, Except.map]
        · simp [updateResponse, responseFieldOk, h1, h2, h3, h4]

theorem decodeResponseFields_ok :
    ∀ (fs : List (String × Json)) (r : Response),
      (∃ q, decodeResponseFields r fs = Except.ok q) ↔
        fs.all responseFieldOk = true := by
  intro fs
  induction fs with
  | nil => intro r; simp [decodeResponseFields]
  | cons kv rest ih =>
    intro r
    obtain ⟨k, j⟩ := kv
    simp only [decodeResponseFields, List.all_cons, Bool.and_eq_true]
    rcases hu : updateResponse r (k, j) with e | q
    · have hno : ¬ responseFieldOk (k, j) = true := by
        rw [← updateResponse_ok r k j]
        simp [hu]
      simp [hu, hno]
    · have hok : responseFieldOk (k, j) = true := by
        rw [← updateResponse_ok r k j]
        exact ⟨q, hu⟩
      simp [hu, hok, ih q]

/-- A decoded key only changes the field it matches (exactly or
case-insensitively): every component whose tag the key does not match
passes through unchanged. -/
theorem updateResponse_preserves (r q : Response) (k : String) (j : Json)
    (h : updateResponse r (k, j) = Except.ok q) :
    (jsonKeyMatches k "version" = false → q.version = r.version) ∧
    (jsonKeyMatches k "players" = false → q.players = r.players) ∧
    (jsonKeyMatches k "description" = false →
      q.description = r.description) ∧
    (jsonKeyMatches k "favicon" = false → q.favicon = r.favicon) := by
  by_cases h1 : jsonKeyMatches k "version" = true
  · rcases hv : decodeVersion j r.version with e | v
    · simp [updateResponse, h1, hv, Except.map] at h
    · simp [updateResponse, h1, hv, Except.map] at h
      subst h
      refine ⟨fun hc => ?_, fun _ => rfl, fun _ => rfl, fun _ => rfl⟩
      rw [hc] at h1
      simp at h1
  · by_cases h2 : jsonKeyMatches k "players" = true
    · rcases hp : decodePlayers j r.players with e | p
      · simp [updateResponse, h1, h2, hp, Except.map] at h
      · simp [updateResponse, h1, h2, hp, Except.map] at h
        subst h
        refine ⟨fun _ => rfl, fun hc => ?_, fun _ => rfl, fun _ => rfl⟩
        rw [hc] at h2
        simp at h2
    · by_cases h3 : jsonKeyMatches k "description" = true
      · simp [updateResponse, h1, h2, h3] at h
        subst h
        refine ⟨fun _ => rfl, fun _ => rfl, fun hc => ?_, fun _ => rfl⟩
        rw [hc] at h3
        simp at h3
      · by_cases h4 : jsonKeyMatches k "favicon" = true
        · rcases hs : decodeString j r.favicon with e | s
          · simp [updateResponse, h1, h2, h3, h4, hs, Except.map] at h
          · simp [updateResponse, h1, h2, h3, h4, hs, Except.map] at h
            subst h
            refine ⟨fun _ => rfl, fun _ => rfl, fun _ => rfl,
              fun hc => ?_⟩
            rw [hc] at h4
            simp at h4
        · simp [updateResponse, h1, h2, h3, h4] at h
          subst h
          exact ⟨fun _ => rfl, fun _ => rfl, fun _ => rfl, fun _ => rfl⟩

/-- A field whose tag no key of the object matches — exactly or
case-insensitively — is left at the value it started from. -/
theorem decodeResponseFields_preserves :
    ∀ (fs : List (String × Json)) (r0 r : Response),
      decodeResponseFields r0 fs = Except.ok r →
      ((∀ p ∈ fs, jsonKeyMatches p.1 "version" = false) →
        r.version = r0.version) ∧
      ((∀ p ∈ fs, jsonKeyMatches p.1 "players" = false) →
        r.players = r0.players) ∧
      ((∀ p ∈ fs, jsonKeyMatches p.1 "description" = false) →
        r.description = r0.description) ∧
      ((∀ p ∈ fs, jsonKeyMatches p.1 "favicon" = false) →
        r.favicon = r0.favicon) := by
  intro fs
  induction fs with
  | nil =>
    intro r0 r h
    simp [decodeResponseFields] at h
    subst h
    exact ⟨fun _ => rfl, fun _ => rfl, fun _ => rfl, fun _ => rfl⟩
  | cons kv rest ih =>
    intro r0 r h
    obtain ⟨k, j⟩ := kv
    rcases hu : updateResponse r0 (k, j) with e | q
    · simp [decodeResponseFields, hu] at h
    · simp only [decodeResponseFields, hu] at h
      have hstep := updateResponse_preserves r0 q k j hu
      have hrest := ih q r h
      refine ⟨?_, ?_, ?_, ?_⟩ <;>
        · intro hnot
          have hhead := hnot (k, j) (by simp)
          have htail : ∀ p ∈ rest, _ = false :=
            fun p hp => hnot p (by simp [hp])
          first
          | exact (hrest.1 htail).trans (hstep.1 hhead)
          | exact (hrest.2.1 htail).trans (hstep.2.1 hhead)
          | exact (hrest.2.2.1 htail).trans (hstep.2.2.1 hhead)
          | exact (hrest.2.2.2 htail).trans (hstep.2.2.2 hhead)

example : unmarshalResponse (Json.obj [("FAVICON", Json.bool true)]) =
    Except.error JsonErr.typeMismatch := rfl

example : decodeResponseFields zeroResponse
      [("VERSION", Json.obj [("Protocol", Json.num 498)])] =
    Except.ok { zeroResponse with version := ⟨"", 498⟩ } := rfl

end MinecraftPing
